import Mathlib

/-!
Verification of the Pythagorean bonding-curve prediction market.

This file gives a shallow embedding of the core of the program
(`programs/prediction_market/src`): the integer square root, the
`PythagoreanCurve` functions (`get_tokens_to_mint`,
`get_reserve_to_release`, `get_price`), the trade instructions
(`buy_tokens`, `sell_tokens`), redemption (`redeem`), market resolution
(`resolve_market`) and market creation (`create_market_state`,
`fund_market`).

Machine integers are modelled as `Nat` with explicit reductions
modulo `2^64` (for Rust `as u64` casts) and explicit range checks
modulo `2^128` (for `checked_add`/`checked_mul` on `u128`).
Rust `Result`/panics are modelled with `Except`: an `unwrap` that can
fail becomes an explicit `Panic` error branch.
-/

namespace PredictionMarket

/-- Modulus of the 64-bit unsigned integers (2 ^ 64). -/
def U64_MOD : Nat := 18446744073709551616

/-- Modulus of the 128-bit unsigned integers (2 ^ 128). -/
def U128_MOD : Nat := 340282366920938463463374607431768211456

/-- Precision scale factor of the bonding curve (`PRECISION_SCALE` in
`amm/bonding_curve.rs`): inputs are divided by this before the curve
arithmetic and results multiplied back up. -/
def PRECISION_SCALE : Nat := 1000

/-- Errors of the bonding-curve module (`AmmError` in
`amm/bonding_curve.rs`). -/
inductive AmmError where
  | InvalidReserves
  | InvalidSupplies
  | Overflow
  | DivisionByZero
  | SlippageExceeded
  | InsufficientTokens
  | NoTokensToMint
deriving DecidableEq, Repr

/-- Loop of the Newton iteration of `sqrt` in `amm/bonding_curve.rs`
(the identical helper `integer_sqrt` appears in
`instructions/market/create_market.rs`):

while z < y { y = z; z = (x / z + z) / 2; } return y

over unbounded natural numbers. The state is the pair `(z, y)`; the
loop terminates because `y` strictly decreases (`y` is replaced by `z`
only when `z < y`). The `u128`-faithful loop is `sqrtAux_u128`; the
two agree step for step whenever `x + 1` fits in `u128`
(`sqrtAux_u128_agrees`). -/
def sqrtAux (x z y : Nat) : Nat :=
  if h : z < y then sqrtAux x ((x / z + z) / 2) z else y
termination_by y
decreasing_by exact h

/-- Idealized integer square root: the source's Newton method with the
`u128` arithmetic replaced by unbounded naturals —
`if x == 0 return 0; z = (x+1)/2; y = x;` then the loop of `sqrtAux`.
The `u128`-faithful model is `sqrt_u128` below; both agree for every
`x` with `x + 1 < 2^128` (`sqrt_u128_eq_of_lt`). The bonding-curve
call sites only reach arguments in that range: their own
`checked_mul`/`checked_add` guards bound the argument by `2^128 − 1`,
and `2^128 − 1` itself cannot arise there (in `get_reserve_to_release`
the argument `new_a² + b²` is ≡ 0, 1 or 2 mod 4 while `2^128 − 1` ≡ 3;
in `get_tokens_to_mint` the argument `new_r² − b²` is at most
`new_r² ≤ 2^128 − 1`, with equality only if `b = 0` and
`new_r² = 2^128 − 1`, which is not a perfect square). -/
def sqrt (x : Nat) : Nat :=
  if x = 0 then 0 else sqrtAux x ((x + 1) / 2) x

/-- Loop of the source's Newton iteration with the `u128` arithmetic
modelled exactly: at each step the division `x / z` panics when
`z = 0`, and the addition `x / z + z` panics when its exact value
exceeds the `u128` range; `none` models the panic. -/
def sqrtAux_u128 (x z y : Nat) : Option Nat :=
  if h : z < y then
    if z = 0 then none
    else if U128_MOD ≤ x / z + z then none
    else sqrtAux_u128 x ((x / z + z) / 2) z
  else some y
termination_by y
decreasing_by exact h

/-- Faithful `u128` model of `sqrt` in `amm/bonding_curve.rs` (and of
the identical `integer_sqrt` in
`instructions/market/create_market.rs`): after the `x == 0` early
return, the initial guess computes `x + 1`, which overflows `u128`
exactly at `x = 2^128 − 1` — with overflow checks the addition panics,
and with wrapping arithmetic `z` becomes `0` and the loop's `x / z`
panics on division by zero — so that call fails (`none`). Every other
input runs the Newton loop `sqrtAux_u128`, whose intermediate values
then stay in `u128` range (`sqrtAux_u128_agrees`). -/
def sqrt_u128 (x : Nat) : Option Nat :=
  if x = 0 then some 0
  else if U128_MOD ≤ x + 1 then none
  else sqrtAux_u128 x ((x + 1) / 2) x

/-- Embedding of `PythagoreanCurve::get_tokens_to_mint`
(`amm/bonding_curve.rs`). All `u128` `checked_add`/`checked_mul` calls
appear as explicit `U128_MOD` range checks; the two `checked_sub` calls
sit behind guards (`new_r_squared >= b_squared`, `new_a > a`) so their
`Overflow` branch is unreachable and subtraction is written directly;
the final `as u64` cast is the reduction modulo `U64_MOD`. -/
def get_tokens_to_mint (reserves target_supply other_supply collateral_in : Nat) :
    Except AmmError Nat :=
  if reserves = 0 then .error .InvalidReserves
  else if collateral_in = 0 then .error .InvalidReserves
  else
    let r := reserves / PRECISION_SCALE
    let a := target_supply / PRECISION_SCALE
    let b := other_supply / PRECISION_SCALE
    let l := collateral_in / PRECISION_SCALE
    if r + l ≥ U128_MOD then .error .Overflow
    else
      let new_r := r + l
      if new_r * new_r ≥ U128_MOD then .error .Overflow
      else if b * b ≥ U128_MOD then .error .Overflow
      else if new_r * new_r < b * b then .error .InvalidSupplies
      else
        let new_a := sqrt (new_r * new_r - b * b)
        if new_a ≤ a then .error .NoTokensToMint
        else if (new_a - a) * PRECISION_SCALE ≥ U128_MOD then .error .Overflow
        else .ok ((new_a - a) * PRECISION_SCALE % U64_MOD)

/-- Embedding of `PythagoreanCurve::get_reserve_to_release`
(`amm/bonding_curve.rs`). The `checked_sub` computing
`new_a = a - burn` is kept as an explicit branch (it errors with
`Overflow` exactly when it would fail in the source);
`collateral_out = r.saturating_sub(new_r)` is `Nat` truncated
subtraction; the final `as u64` cast is reduction modulo `U64_MOD`. -/
def get_reserve_to_release (reserves target_supply other_supply tokens_to_burn : Nat) :
    Except AmmError Nat :=
  if tokens_to_burn = 0 then .error .InvalidReserves
  else if target_supply < tokens_to_burn then .error .InsufficientTokens
  else
    let r := reserves / PRECISION_SCALE
    let a := target_supply / PRECISION_SCALE
    let b := other_supply / PRECISION_SCALE
    let burn := tokens_to_burn / PRECISION_SCALE
    if a < burn then .error .Overflow
    else
      let new_a := a - burn
      if new_a * new_a ≥ U128_MOD then .error .Overflow
      else if b * b ≥ U128_MOD then .error .Overflow
      else if new_a * new_a + b * b ≥ U128_MOD then .error .Overflow
      else
        let new_r := sqrt (new_a * new_a + b * b)
        let collateral_out := r - new_r
        if collateral_out * PRECISION_SCALE ≥ U128_MOD then .error .Overflow
        else .ok (collateral_out * PRECISION_SCALE % U64_MOD)

/-- Embedding of `PythagoreanCurve::get_price` (`amm/bonding_curve.rs`).
The third argument `_other_supply` is unused, as in the source. The
`checked_mul` is the `U128_MOD` range check, the `checked_div` is the
explicit zero test, and the `as u64` cast is reduction modulo
`U64_MOD`. -/
def get_price (reserves target_supply _other_supply : Nat) : Except AmmError Nat :=
  if reserves = 0 then .ok 5000
  else
    let r := reserves / PRECISION_SCALE
    let a := target_supply / PRECISION_SCALE
    if r = 0 then .ok 5000
    else if a * 10000 ≥ U128_MOD then .error .Overflow
    else if r = 0 then .error .DivisionByZero
    else .ok (a * 10000 / r % U64_MOD)

/-- Market lifecycle status (`MarketStatus` in `state/market.rs`). -/
inductive MarketStatus where
  | Active
  | Ended
  | Resolved
  | Cancelled
deriving DecidableEq, Repr

/-- Market resolution outcome (`Outcome` in `state/market.rs`). -/
inductive Outcome where
  | Undetermined
  | Yes
  | No
deriving DecidableEq, Repr

/-- The claim-relevant fields of the on-chain `Market` account
(`state/market.rs`). The omitted fields (id, creator, question, mints,
`created_at`, commitment bytes, bump) are addresses/metadata that none
of the verified operations read or branch on. All integer fields are
`u64` in the source; theorems carry explicit `< U64_MOD` bounds where
they matter. -/
structure Market where
  reserves : Nat
  yes_supply : Nat
  no_supply : Nat
  end_time : Nat
  status : MarketStatus
  outcome : Outcome
deriving DecidableEq, Repr

/-- The claim-relevant fields of the global `Config` account
(`state/config.rs`). -/
structure Config where
  protocol_fee_bps : Nat
  paused : Bool
  min_liquidity : Nat
deriving DecidableEq, Repr

/-- Errors of the trade instruction (`TradeError` in
`instructions/trade.rs`). -/
inductive TradeError where
  | MarketNotActive
  | MarketEnded
  | ProtocolPaused
  | SlippageExceeded
deriving DecidableEq, Repr

/-- Errors of the redemption instruction (`RedeemError` in
`instructions/redeem.rs`). -/
inductive RedeemError where
  | NotResolved
  | NoWinningTokens
deriving DecidableEq, Repr

/-- Errors of market resolution (`ResolveError` in
`instructions/market/resolve.rs`). -/
inductive ResolveError where
  | Unauthorized
  | CannotResolve
  | MarketNotEnded
deriving DecidableEq, Repr

/-- Errors of market creation (`CreateMarketError` in
`instructions/market/create_market.rs`). -/
inductive CreateMarketError where
  | ProtocolPaused
  | InvalidEndTime
  | InsufficientLiquidity
  | QuestionTooLong
deriving DecidableEq, Repr

/-- Union of the failure modes an instruction can produce: each
module's typed error, plus `Panic` for a Rust `unwrap()` that fails
(an aborting arithmetic overflow/underflow on `u64`). -/
inductive ProgramError where
  | amm (e : AmmError)
  | trade (e : TradeError)
  | redeem (e : RedeemError)
  | resolve (e : ResolveError)
  | create (e : CreateMarketError)
  | Panic
deriving DecidableEq, Repr

/-- Rust `u64 as i64` cast, used on `market.end_time` in the clock
comparisons (`self.market.end_time as i64`). -/
def i64ofU64 (t : Nat) : Int :=
  if t < 9223372036854775808 then (t : Int) else (t : Int) - 18446744073709551616

/-- Embedding of `Trade::buy_tokens` (`instructions/trade.rs`).

The Anchor account constraint `market.status == Active` (checked before
the instruction body runs) is the first branch. `now` is the clock's
`unix_timestamp : i64`. The fee computation
`amount.checked_mul(fee_bps).unwrap().checked_div(10000).unwrap()` and
`amount.checked_sub(fee).unwrap()` are `u64` arithmetic whose failing
`unwrap` is the `Panic` branch (division by the constant 10000 cannot
fail), as are the two `checked_add(..).unwrap()` ledger updates.
Returns the minted token amount together with the updated market. -/
def buy_tokens (config : Config) (market : Market) (now : Int)
    (amount : Nat) (buy_yes : Bool) (min_tokens_out : Nat) :
    Except ProgramError (Nat × Market) :=
  if market.status ≠ .Active then .error (.trade .MarketNotActive)
  else if ¬ now < i64ofU64 market.end_time then .error (.trade .MarketEnded)
  else if config.paused then .error (.trade .ProtocolPaused)
  else if amount * config.protocol_fee_bps ≥ U64_MOD then .error .Panic
  else
    let fee := amount * config.protocol_fee_bps / 10000
    if amount < fee then .error .Panic
    else
      let amount_after_fee := amount - fee
      let target_supply := if buy_yes then market.yes_supply else market.no_supply
      let other_supply := if buy_yes then market.no_supply else market.yes_supply
      match get_tokens_to_mint market.reserves target_supply other_supply amount_after_fee with
      | .error e => .error (.amm e)
      | .ok tokens_out =>
        if tokens_out < min_tokens_out then .error (.trade .SlippageExceeded)
        else if market.reserves + amount_after_fee ≥ U64_MOD then .error .Panic
        else if target_supply + tokens_out ≥ U64_MOD then .error .Panic
        else
          .ok (tokens_out,
            { market with
              reserves := market.reserves + amount_after_fee
              yes_supply := if buy_yes then market.yes_supply + tokens_out
                            else market.yes_supply
              no_supply := if buy_yes then market.no_supply
                           else market.no_supply + tokens_out })

/-- Embedding of `Trade::sell_tokens` (`instructions/trade.rs`).

The curve is called with the pre-fee `market.reserves`; the fee is
taken from the curve output; slippage is checked on the post-fee
amount; the ledger subtracts the full pre-fee `collateral_out` from
reserves and `amount` from the sold side's supply
(`checked_sub(..).unwrap()` panics model the would-fail cases).
Returns the post-fee collateral paid to the trader and the updated
market. -/
def sell_tokens (config : Config) (market : Market) (now : Int)
    (amount : Nat) (sell_yes : Bool) (min_collateral_out : Nat) :
    Except ProgramError (Nat × Market) :=
  if market.status ≠ .Active then .error (.trade .MarketNotActive)
  else if ¬ now < i64ofU64 market.end_time then .error (.trade .MarketEnded)
  else if config.paused then .error (.trade .ProtocolPaused)
  else
    let target_supply := if sell_yes then market.yes_supply else market.no_supply
    let other_supply := if sell_yes then market.no_supply else market.yes_supply
    match get_reserve_to_release market.reserves target_supply other_supply amount with
    | .error e => .error (.amm e)
    | .ok collateral_out =>
      if collateral_out * config.protocol_fee_bps ≥ U64_MOD then .error .Panic
      else
        let fee := collateral_out * config.protocol_fee_bps / 10000
        if collateral_out < fee then .error .Panic
        else
          let collateral_after_fee := collateral_out - fee
          if collateral_after_fee < min_collateral_out then .error (.trade .SlippageExceeded)
          else if market.reserves < collateral_out then .error .Panic
          else if target_supply < amount then .error .Panic
          else
            .ok (collateral_after_fee,
              { market with
                reserves := market.reserves - collateral_out
                yes_supply := if sell_yes then market.yes_supply - amount
                              else market.yes_supply
                no_supply := if sell_yes then market.no_supply
                             else market.no_supply - amount })

/-- Payout core of `Redeem::redeem` (`instructions/redeem.rs`), shared
by the `Outcome::Yes` and `Outcome::No` arms: it receives the winning
side's user balance and the market's recorded total supply for that
side. The multiplication is the source's `u128` widening
`checked_mul`, the division its `checked_div` (whose failing `unwrap`
is `Panic` when the supply is zero), the `% U64_MOD` the `as u64`
cast, and the reserves update the `checked_sub(..).unwrap()`.
Note that only `market.reserves` is updated: the market's recorded
`yes_supply`/`no_supply` fields are left untouched (the token burn
happens on the external mint, not on the ledger fields). -/
def redeem_core (market : Market) (user_balance total_supply : Nat) :
    Except ProgramError (Nat × Market) :=
  if user_balance = 0 then .error (.redeem .NoWinningTokens)
  else if user_balance * market.reserves ≥ U128_MOD then .error .Panic
  else if total_supply = 0 then .error .Panic
  else
    let collateral_to_receive := user_balance * market.reserves / total_supply % U64_MOD
    if market.reserves < collateral_to_receive then .error .Panic
    else .ok (collateral_to_receive,
              { market with reserves := market.reserves - collateral_to_receive })

/-- Embedding of `Redeem::redeem` (`instructions/redeem.rs`). The
Anchor constraint `market.status == Resolved` (error `NotResolved`) is
the first branch; the body then matches on `market.outcome`, selecting
the winning side's user token balance and recorded supply, with
`Outcome::Undetermined` failing with `NotResolved`. -/
def redeem (market : Market) (user_yes_amount user_no_amount : Nat) :
    Except ProgramError (Nat × Market) :=
  if market.status ≠ .Resolved then .error (.redeem .NotResolved)
  else
    match market.outcome with
    | .Undetermined => .error (.redeem .NotResolved)
    | .Yes => redeem_core market user_yes_amount market.yes_supply
    | .No => redeem_core market user_no_amount market.no_supply

/-- Embedding of `ResolveMarket::resolve_market`
(`instructions/market/resolve.rs`). The Anchor constraint
`status == Active || status == Ended` (error `CannotResolve`) precedes
the body; the body requires the clock to have reached `end_time`
(else `MarketNotEnded`) and then sets the outcome and the `Resolved`
status in the same step. The oracle-signer constraint is an external
authorization check and is not modelled. -/
def resolve_market (market : Market) (now : Int) (yes_wins : Bool) :
    Except ProgramError Market :=
  if ¬ (market.status = .Active ∨ market.status = .Ended) then
    .error (.resolve .CannotResolve)
  else if now < i64ofU64 market.end_time then .error (.resolve .MarketNotEnded)
  else .ok { market with
             outcome := if yes_wins then .Yes else .No
             status := .Resolved }

/-- Embedding of `CreateMarketState::create_market_state`
(`instructions/market/create_market.rs`, step 1 of the creation
pipeline): validates pause flag, end time and question length, then
initializes the market with zero reserves and supplies, `Active`
status and `Undetermined` outcome. -/
def create_market_state (config : Config) (now : Nat)
    (question_len end_time : Nat) : Except ProgramError Market :=
  if config.paused then .error (.create .ProtocolPaused)
  else if ¬ end_time > now then .error (.create .InvalidEndTime)
  else if question_len > 256 then .error (.create .QuestionTooLong)
  else .ok { reserves := 0, yes_supply := 0, no_supply := 0,
             end_time := end_time, status := .Active, outcome := .Undetermined }

/-- Embedding of `FundMarket::fund_market`
(`instructions/market/create_market.rs`, step 4): requires the market
to be unfunded (`reserves == 0`, an account constraint) and the
liquidity to meet the configured minimum, then seeds
`yes_supply = no_supply = isqrt(L*L / 2)` and `reserves = L`. The
status and outcome fields are untouched. -/
def fund_market (config : Config) (market : Market) (initial_liquidity : Nat) :
    Except ProgramError Market :=
  if market.reserves ≠ 0 then .error .Panic
  else if initial_liquidity < config.min_liquidity then
    .error (.create .InsufficientLiquidity)
  else
    let token_amount := sqrt (initial_liquidity * initial_liquidity / 2)
    .ok { market with
          reserves := initial_liquidity
          yes_supply := token_amount
          no_supply := token_amount }

/-- Sequential redemptions: fold `redeem` over a list of winning-side
user balances (the `Outcome::Yes` case; each user's non-winning
balance is irrelevant and passed as 0), threading the market state and
accumulating the total collateral paid out. -/
def redeemMany (market : Market) : List Nat → Except ProgramError (Market × Nat)
  | [] => .ok (market, 0)
  | b :: bs =>
    match redeem market b 0 with
    | .error e => .error e
    | .ok (c, market') =>
      match redeemMany market' bs with
      | .error e => .error e
      | .ok (mf, total) => .ok (mf, c + total)

/-- Reachable market states: a state produced by `create_market_state`
and then transformed by any sequence of the embedded instructions. The
`other` constructor covers the remaining instructions of the program
that mutate a market (`fund_market` of the creation pipeline, the
privacy/shielded/compressed instruction bodies): every one of them
only changes `reserves`/`yes_supply`/`no_supply` and never writes the
`status` or `outcome` fields. -/
inductive Reachable : Market → Prop where
  | created : ∀ config now qlen end_time m,
      create_market_state config now qlen end_time = .ok m → Reachable m
  | buy : ∀ config m now amount buy_yes min_out t m',
      Reachable m → buy_tokens config m now amount buy_yes min_out = .ok (t, m') →
      Reachable m'
  | sell : ∀ config m now amount sell_yes min_out c m',
      Reachable m → sell_tokens config m now amount sell_yes min_out = .ok (c, m') →
      Reachable m'
  | resolved : ∀ m now yes_wins m',
      Reachable m → resolve_market m now yes_wins = .ok m' → Reachable m'
  | redeemed : ∀ m uy un c m',
      Reachable m → redeem m uy un = .ok (c, m') → Reachable m'
  | other : ∀ m m',
      Reachable m → m'.status = m.status → m'.outcome = m.outcome → Reachable m'

/-- Concrete protocol configuration (1% fee, unpaused) used by the
trade witnesses. -/
def cfgW : Config := ⟨100, false, 1000000⟩

/-- Concrete balanced market used by the trade witnesses. -/
def mW : Market := ⟨1000000, 707000, 707000, 100, .Active, .Undetermined⟩

/-- State of `mW` after the witness buy of 100000 collateral. -/
def mWb : Market := ⟨1099000, 841000, 707000, 100, .Active, .Undetermined⟩

/-- State of `mW` after the witness sell of 50000 tokens. -/
def mWs : Market := ⟨965000, 657000, 707000, 100, .Active, .Undetermined⟩

/-! Integer square root: correctness of the Newton iteration. -/

/-- Arithmetic-mean/geometric-mean style helper: `2*a*b ≤ a*a + b*b`
over the natural numbers. -/
lemma two_mul_le_sq_add_sq (a b : Nat) : 2 * a * b ≤ a * a + b * b := by
  rcases Nat.le_total a b with h | h
  · obtain ⟨c, rfl⟩ := Nat.le.dest h
    have key : a * a + (a + c) * (a + c) = 2 * a * (a + c) + c * c := by ring
    calc 2 * a * (a + c) ≤ 2 * a * (a + c) + c * c := Nat.le_add_right _ _
      _ = a * a + (a + c) * (a + c) := key.symm
  · obtain ⟨c, rfl⟩ := Nat.le.dest h
    have key : (b + c) * (b + c) + b * b = 2 * (b + c) * b + c * c := by ring
    calc 2 * (b + c) * b ≤ 2 * (b + c) * b + c * c := Nat.le_add_right _ _
      _ = (b + c) * (b + c) + b * b := key.symm

/-- Every Newton iterate `(x / y + y) / 2` computed from a positive `y`
is at least `Nat.sqrt x`: the iteration can never drop below the true
integer square root. -/
lemma nat_sqrt_le_newton_step (x y : Nat) (hy : 0 < y) :
    Nat.sqrt x ≤ (x / y + y) / 2 := by
  have hs : Nat.sqrt x * Nat.sqrt x ≤ x := Nat.sqrt_le x
  rw [Nat.le_div_iff_mul_le (by norm_num : 0 < 2)]
  rcases Nat.le_total (2 * Nat.sqrt x) y with hcase | hcase
  · have := Nat.zero_le (x / y)
    omega
  · obtain ⟨d, hd⟩ : ∃ d, 2 * Nat.sqrt x = y + d := ⟨2 * Nat.sqrt x - y, by omega⟩
    have h2 : 2 * Nat.sqrt x * y ≤ Nat.sqrt x * Nat.sqrt x + y * y :=
      two_mul_le_sq_add_sq (Nat.sqrt x) y
    have h4 : (y + d) * y = y * y + d * y := by ring
    have h5 : 2 * Nat.sqrt x * y = (y + d) * y := by rw [hd]
    have h6 : y * y + d * y ≤ y * y + Nat.sqrt x * Nat.sqrt x := by
      rw [← h4, ← h5]
      calc 2 * Nat.sqrt x * y ≤ Nat.sqrt x * Nat.sqrt x + y * y := h2
        _ = y * y + Nat.sqrt x * Nat.sqrt x := by ring
    have h7 : d * y ≤ Nat.sqrt x * Nat.sqrt x := Nat.le_of_add_le_add_left h6
    have h8 : d ≤ x / y := (Nat.le_div_iff_mul_le hy).mpr (le_trans h7 hs)
    omega

/-- Invariant proof of the Newton loop: started at a state
`z = (x / y + y) / 2` with `0 < y` and `Nat.sqrt x ≤ y`, the loop
returns exactly `Nat.sqrt x`. -/
lemma sqrtAux_correct (x : Nat) (hx : 0 < x) :
    ∀ y, 0 < y → Nat.sqrt x ≤ y → sqrtAux x ((x / y + y) / 2) y = Nat.sqrt x := by
  intro y
  induction y using Nat.strong_induction_on with
  | _ y ih =>
    intro hy hsy
    rw [sqrtAux]
    split
    · rename_i hlt
      have hz : 0 < (x / y + y) / 2 := by
        rcases Nat.lt_or_ge y 2 with h1 | h2
        · have hy1 : y = 1 := by omega
          subst hy1
          rw [Nat.div_one]
          omega
        · have h3 : y / 2 ≤ (x / y + y) / 2 :=
            Nat.div_le_div_right (Nat.le_add_left y (x / y))
          omega
      exact ih _ hlt hz (nat_sqrt_le_newton_step x y hy)
    · rename_i hge
      have h1 : y ≤ (x / y + y) / 2 := Nat.le_of_not_lt hge
      have h2 : y * 2 ≤ x / y + y := (Nat.le_div_iff_mul_le (by norm_num : 0 < 2)).mp h1
      have h3 : y ≤ x / y := by omega
      have h4 : y * y ≤ x := (Nat.le_div_iff_mul_le hy).mp h3
      have h5 : y ≤ Nat.sqrt x := Nat.le_sqrt.mpr h4
      omega

/-- The source's Newton integer square root agrees with `Nat.sqrt`,
i.e. it computes `floor` of the real square root exactly. -/
theorem sqrt_eq_nat_sqrt (x : Nat) : sqrt x = Nat.sqrt x := by
  unfold sqrt
  split
  · rename_i h; subst h; exact (Nat.sqrt_zero).symm
  · rename_i h
    have hx : 0 < x := Nat.pos_of_ne_zero h
    have hinit : (x + 1) / 2 = (x / x + x) / 2 := by
      rw [Nat.div_self hx, Nat.add_comm]
    rw [hinit]
    exact sqrtAux_correct x hx x hx (Nat.sqrt_le_self x)

/-- Evaluation helper: a value sandwiched between the square bounds is
the integer square root. -/
lemma sqrt_eq_exact (n m : Nat) (h1 : m * m ≤ n) (h2 : n < (m + 1) * (m + 1)) :
    sqrt n = m := by
  rw [sqrt_eq_nat_sqrt]
  exact (Nat.eq_sqrt.mpr ⟨h1, h2⟩).symm

/-- Monotone upper bound: below a perfect square, the root is below its
base. -/
lemma sqrt_le_of_le_sq {n m : Nat} (h : n ≤ m * m) : sqrt n ≤ m := by
  rw [sqrt_eq_nat_sqrt]
  calc Nat.sqrt n ≤ Nat.sqrt (m * m) := Nat.sqrt_le_sqrt h
    _ = m := Nat.sqrt_eq m

/-- For positive naturals the sum is at most the product plus one. -/
lemma add_le_mul_succ (a b : Nat) (ha : 1 ≤ a) (hb : 1 ≤ b) :
    a + b ≤ a * b + 1 := by
  obtain ⟨a', rfl⟩ : ∃ a', a = a' + 1 := ⟨a - 1, by omega⟩
  obtain ⟨b', rfl⟩ : ∃ b', b = b' + 1 := ⟨b - 1, by omega⟩
  have h1 : (a' + 1) * (b' + 1) + 1 = a' * b' + (a' + 1 + (b' + 1)) := by ring
  rw [h1]
  exact Nat.le_add_left _ _

/-- The Newton step sum `x / z + z` never exceeds `x + 1` for
`0 < z ≤ x`: the loop arithmetic cannot overflow `u128` once the
initial guess fits. -/
lemma div_add_le_succ (x z : Nat) (hz : 0 < z) (hzx : z ≤ x) :
    x / z + z ≤ x + 1 := by
  by_cases h0 : x / z = 0
  · rw [h0]
    omega
  · have h1 : 1 ≤ x / z := Nat.pos_of_ne_zero h0
    have h2 : x / z + z ≤ x / z * z + 1 := add_le_mul_succ _ _ h1 hz
    have h3 : x / z * z ≤ x := Nat.div_mul_le_self x z
    omega

/-- For `0 < x` with `x + 1` in `u128` range, the checked `u128` loop
never panics and agrees step for step with the unbounded loop. -/
lemma sqrtAux_u128_agrees (x : Nat) (hx : x + 1 < U128_MOD) (hxpos : 0 < x) :
    ∀ y, 0 < y → y ≤ x → ∀ z, 0 < z → sqrtAux_u128 x z y = some (sqrtAux x z y) := by
  intro y
  induction y using Nat.strong_induction_on with
  | _ y ih =>
    intro hy hyx z hz
    rw [sqrtAux_u128, sqrtAux]
    by_cases hzy : z < y
    · rw [dif_pos hzy, dif_pos hzy]
      have hzne : ¬ z = 0 := by omega
      have hzx : z ≤ x := by omega
      have hnoflow : ¬ U128_MOD ≤ x / z + z := by
        have := div_add_le_succ x z hz hzx
        omega
      rw [if_neg hzne, if_neg hnoflow]
      have hz' : 0 < (x / z + z) / 2 := by
        rcases Nat.lt_or_ge z 2 with h1 | h2
        · have hz1 : z = 1 := by omega
          subst hz1
          rw [Nat.div_one]
          omega
        · have h3 : z / 2 ≤ (x / z + z) / 2 :=
            Nat.div_le_div_right (Nat.le_add_left z (x / z))
          omega
      exact ih z hzy hz (le_of_lt (lt_of_lt_of_le hzy hyx)) ((x / z + z) / 2) hz'
    · rw [dif_neg hzy, dif_neg hzy]

/-- For every input whose successor fits in `u128` (every `u128` value
except `2^128 − 1`), the checked model succeeds with the idealized
loop's value. -/
lemma sqrt_u128_eq_of_lt (x : Nat) (hx : x + 1 < U128_MOD) :
    sqrt_u128 x = some (sqrt x) := by
  unfold sqrt_u128 sqrt
  by_cases h0 : x = 0
  · simp [h0]
  · have hxpos : 0 < x := Nat.pos_of_ne_zero h0
    rw [if_neg h0, if_neg h0, if_neg (Nat.not_le.mpr hx)]
    exact sqrtAux_u128_agrees x hx hxpos x hxpos (le_refl x) ((x + 1) / 2)
      (by omega)

/-! Numeric range helpers for the `u128` overflow checks. -/

/-- Scaled-down `u64` values are below `2^64 / 1000`, rounded up. -/
lemma scaled_lt (n : Nat) (h : n < U64_MOD) : n / 1000 ≤ 18446744073709551 := by
  unfold U64_MOD at h
  omega

/-- Products of two values below twice the scaled-down bound stay far
below the `u128` modulus. -/
lemma mul_lt_u128 {x y : Nat} (hx : x ≤ 36893488147419103) (hy : y ≤ 36893488147419103) :
    x * y < U128_MOD := by
  calc x * y ≤ 36893488147419103 * 36893488147419103 := Nat.mul_le_mul hx hy
    _ < U128_MOD := by norm_num [U128_MOD]

/-- C3 counterexample: at `x = u128::MAX = 2^128 − 1` the source's
initial guess computes `x + 1`, which overflows `u128` — with overflow
checks the addition panics, and with wrapping arithmetic `z₀ = 0` and
the loop's `x / z` panics on division by zero — so the call fails and
the function is not total on `u128`, even though the mathematical
floor square root there exists (`2^64 − 1`). -/
theorem sqrt_u128_max_panics_cx :
    sqrt_u128 340282366920938463463374607431768211455 = none ∧
    sqrt 340282366920938463463374607431768211455 = 18446744073709551615 := by
  constructor
  · rfl
  · exact sqrt_eq_exact 340282366920938463463374607431768211455
      18446744073709551615 (by norm_num) (by norm_num)

/-- C3 amended: the source's `u128` Newton square root fails (panics)
at exactly `x = 2^128 − 1`, where the initial `x + 1` overflows
`u128`; for every other `u128` input the iteration terminates with no
intermediate overflow and returns exactly `floor(√x)`: the returned
value is the idealized loop value `sqrt`, which agrees with
`Nat.sqrt`, satisfies `sqrt x · sqrt x ≤ x < (sqrt x + 1)·(sqrt x +
1)`, and has `sqrt 0 = 0` and the spot values `sqrt 1 = 1`,
`sqrt 4 = 2`, `sqrt 9 = 3`, `sqrt 10 = 3`, `sqrt 100 = 10`,
`sqrt 1000000 = 1000`. -/
theorem sqrt_is_floor_sqrt :
    (∀ x, x + 1 < U128_MOD → sqrt_u128 x = some (sqrt x)) ∧
    (∀ x, sqrt x = Nat.sqrt x) ∧
    (∀ x, sqrt x * sqrt x ≤ x ∧ x < (sqrt x + 1) * (sqrt x + 1)) ∧
    (sqrt 0 = 0 ∧ sqrt 1 = 1 ∧ sqrt 4 = 2 ∧ sqrt 9 = 3 ∧ sqrt 10 = 3 ∧
     sqrt 100 = 10 ∧ sqrt 1000000 = 1000) := by
  refine ⟨sqrt_u128_eq_of_lt, sqrt_eq_nat_sqrt, fun x => ?_,
    ?_, ?_, ?_, ?_, ?_, ?_, ?_⟩
  · rw [sqrt_eq_nat_sqrt]
    exact ⟨Nat.sqrt_le x, Nat.lt_succ_sqrt x⟩
  · exact sqrt_eq_exact 0 0 (by norm_num) (by norm_num)
  · exact sqrt_eq_exact 1 1 (by norm_num) (by norm_num)
  · exact sqrt_eq_exact 4 2 (by norm_num) (by norm_num)
  · exact sqrt_eq_exact 9 3 (by norm_num) (by norm_num)
  · exact sqrt_eq_exact 10 3 (by norm_num) (by norm_num)
  · exact sqrt_eq_exact 100 10 (by norm_num) (by norm_num)
  · exact sqrt_eq_exact 1000000 1000 (by norm_num) (by norm_num)

/-- C3 amended witness: the checked `u128` model succeeds at a
concrete in-range input and returns the idealized value, whose spot
value is 1000. -/
theorem sqrt_is_floor_sqrt_witness :
    sqrt_u128 1000000 = some (sqrt 1000000) ∧ sqrt 1000000 = 1000 :=
  ⟨sqrt_is_floor_sqrt.1 1000000 (by norm_num [U128_MOD]),
   sqrt_is_floor_sqrt.2.2.2.2.2.2.2.2.2⟩

/-- C9: any reserve amount strictly between 0 and the precision scale
1000 floor-divides to zero under scaling, so `get_price` returns the
neutral 5000 for every such reserve and every supply — not only at
`reserves == 0`. -/
theorem get_price_subscale_neutral (reserves supply other : Nat)
    (h1 : 0 < reserves) (h2 : reserves < 1000) :
    get_price reserves supply other = .ok 5000 := by
  have hne : reserves ≠ 0 := Nat.pos_iff_ne_zero.mp h1
  have hdiv : reserves / 1000 = 0 := Nat.div_eq_of_lt h2
  simp [get_price, PRECISION_SCALE, hne, hdiv]

/-- C9 witness: a concrete sub-scale reserve returns the neutral
price. -/
theorem get_price_subscale_neutral_witness :
    get_price 500 123456 0 = .ok 5000 :=
  get_price_subscale_neutral 500 123456 0 (by norm_num) (by norm_num)

/-- C6 counterexample: with `reserves = 1000` and `target_supply =
2000` (inputs outside the curve invariant), `get_price` returns 20000
basis points, violating the claimed `[0, 10000]` bound. -/
theorem get_price_above_bound_cx :
    get_price 1000 2000 0 = .ok 20000 ∧ 10000 < 20000 := by
  constructor
  · rfl
  · norm_num

/-- C6 amended: for `u64` inputs with `target_supply ≤ reserves` (the
regime every state satisfying the curve invariant is in, since
`reserves = isqrt(yes² + no²) ≥ each supply`), `get_price` succeeds
with a value in `[0, 10000]`, and returns exactly 5000 when
`reserves = 0`. -/
theorem get_price_bounds (reserves supply other : Nat)
    (hres : reserves < U64_MOD) (hle : supply ≤ reserves) :
    ∃ v, get_price reserves supply other = .ok v ∧ v ≤ 10000 ∧
      (reserves = 0 → v = 5000) := by
  by_cases h0 : reserves = 0
  · refine ⟨5000, ?_, by norm_num, fun _ => rfl⟩
    simp [get_price, h0]
  · by_cases hr : reserves / 1000 = 0
    · refine ⟨5000, ?_, by norm_num, fun h => absurd h h0⟩
      simp [get_price, PRECISION_SCALE, h0, hr]
    · have hrpos : 0 < reserves / 1000 := Nat.pos_of_ne_zero hr
      have ha : supply / 1000 ≤ reserves / 1000 := Nat.div_le_div_right hle
      have hmul : supply / 1000 * 10000 < U128_MOD := by
        calc supply / 1000 * 10000 ≤ 18446744073709551 * 10000 :=
              Nat.mul_le_mul_right 10000 (le_trans ha (scaled_lt reserves hres))
          _ < U128_MOD := by norm_num [U128_MOD]
      have hv : supply / 1000 * 10000 / (reserves / 1000) ≤ 10000 := by
        calc supply / 1000 * 10000 / (reserves / 1000)
            ≤ reserves / 1000 * 10000 / (reserves / 1000) :=
              Nat.div_le_div_right (Nat.mul_le_mul_right 10000 ha)
          _ = 10000 := Nat.mul_div_cancel_left 10000 hrpos
      refine ⟨supply / 1000 * 10000 / (reserves / 1000), ?_, hv,
        fun h => absurd h h0⟩
      have hnolt : ¬ supply / 1000 * 10000 ≥ U128_MOD := by omega
      have hmod : supply / 1000 * 10000 / (reserves / 1000) % U64_MOD =
          supply / 1000 * 10000 / (reserves / 1000) := by
        apply Nat.mod_eq_of_lt
        unfold U64_MOD
        omega
      simp [get_price, PRECISION_SCALE, h0, hr, hnolt, hmod]

/-- C6 amended witness: the balanced test market prices at 7070 basis
points, inside the bound. -/
theorem get_price_bounds_witness :
    ∃ v, get_price 1000000 707000 0 = .ok v ∧ v ≤ 10000 ∧
      (1000000 = 0 → v = 5000) :=
  get_price_bounds 1000000 707000 0 (by norm_num [U64_MOD]) (by norm_num)

/-- Successful evaluation of `get_reserve_to_release` on `u64` inputs
with `0 < tokensToBurn ≤ targetSupply`: the scaled clamped-difference
formula, multiplied back up. -/
lemma get_reserve_to_release_eval (reserves T B t : Nat)
    (hR : reserves < U64_MOD) (hT : T < U64_MOD) (hB : B < U64_MOD)
    (hpos : 0 < t) (hle : t ≤ T) :
    get_reserve_to_release reserves T B t =
      .ok ((reserves / 1000 -
            sqrt ((T / 1000 - t / 1000) * (T / 1000 - t / 1000) +
                  B / 1000 * (B / 1000))) * 1000) := by
  have hne : t ≠ 0 := by omega
  have hnlt : ¬ T < t := by omega
  have hburn : t / 1000 ≤ T / 1000 := Nat.div_le_div_right hle
  have hnlt2 : ¬ T / 1000 < t / 1000 := by omega
  have haB : T / 1000 ≤ 18446744073709551 := scaled_lt T hT
  have hbB : B / 1000 ≤ 18446744073709551 := scaled_lt B hB
  have hrB : reserves / 1000 ≤ 18446744073709551 := scaled_lt reserves hR
  have h1 : ¬ U128_MOD ≤ (T / 1000 - t / 1000) * (T / 1000 - t / 1000) :=
    Nat.not_le.mpr (mul_lt_u128 (by omega) (by omega))
  have h2 : ¬ U128_MOD ≤ B / 1000 * (B / 1000) :=
    Nat.not_le.mpr (mul_lt_u128 (by omega) (by omega))
  have h3 : ¬ U128_MOD ≤
      (T / 1000 - t / 1000) * (T / 1000 - t / 1000) + B / 1000 * (B / 1000) := by
    apply Nat.not_le.mpr
    calc (T / 1000 - t / 1000) * (T / 1000 - t / 1000) + B / 1000 * (B / 1000)
        ≤ 18446744073709551 * 18446744073709551 +
          18446744073709551 * 18446744073709551 :=
          Nat.add_le_add (Nat.mul_le_mul (by omega) (by omega))
            (Nat.mul_le_mul hbB hbB)
      _ < U128_MOD := by norm_num [U128_MOD]
  have hcB : (reserves / 1000 -
      sqrt ((T / 1000 - t / 1000) * (T / 1000 - t / 1000) +
            B / 1000 * (B / 1000))) * 1000 ≤ 18446744073709551000 := by
    have := Nat.sub_le (reserves / 1000)
      (sqrt ((T / 1000 - t / 1000) * (T / 1000 - t / 1000) + B / 1000 * (B / 1000)))
    calc _ ≤ 18446744073709551 * 1000 := Nat.mul_le_mul_right 1000 (by omega)
      _ = 18446744073709551000 := by norm_num
  have h4 : ¬ U128_MOD ≤ (reserves / 1000 -
      sqrt ((T / 1000 - t / 1000) * (T / 1000 - t / 1000) +
            B / 1000 * (B / 1000))) * 1000 := by
    apply Nat.not_le.mpr
    calc _ ≤ 18446744073709551000 := hcB
      _ < U128_MOD := by norm_num [U128_MOD]
  have hmod : (reserves / 1000 -
      sqrt ((T / 1000 - t / 1000) * (T / 1000 - t / 1000) +
            B / 1000 * (B / 1000))) * 1000 % U64_MOD =
      (reserves / 1000 -
       sqrt ((T / 1000 - t / 1000) * (T / 1000 - t / 1000) +
             B / 1000 * (B / 1000))) * 1000 := by
    apply Nat.mod_eq_of_lt
    calc _ ≤ 18446744073709551000 := hcB
      _ < U64_MOD := by norm_num [U64_MOD]
  simp [get_reserve_to_release, PRECISION_SCALE, hne, hnlt, hnlt2, h1, h2, h3,
        h4, hmod]
  /-- Burning more than the target supply fails with
`InsufficientTokens`. -/
lemma get_reserve_to_release_insufficient (reserves T B t' : Nat)
    (ht' : T < t') :
    get_reserve_to_release reserves T B t' = .error .InsufficientTokens := by
  have hne : t' ≠ 0 := by omega
  simp [get_reserve_to_release, hne, ht']

/-- C5: for `u64` inputs with `0 < tokensToBurn ≤ targetSupply`,
`get_reserve_to_release` returns exactly
`(reserves − isqrt((targetSupply − tokensToBurn)² + otherSupply²))`
in scaled units — with the subtraction clamped at zero from below
(natural-number truncated subtraction models the source's
`saturating_sub`) — multiplied back up by 1000; and any call with
`tokensToBurn > targetSupply` fails with `InsufficientTokens`. -/
theorem get_reserve_to_release_spec (reserves T B t : Nat)
    (hR : reserves < U64_MOD) (hT : T < U64_MOD) (hB : B < U64_MOD)
    (hpos : 0 < t) (hle : t ≤ T) :
    get_reserve_to_release reserves T B t =
      .ok ((reserves / 1000 -
            sqrt ((T / 1000 - t / 1000) * (T / 1000 - t / 1000) +
                  B / 1000 * (B / 1000))) * 1000) ∧
    ∀ t', T < t' → get_reserve_to_release reserves T B t' = .error .InsufficientTokens :=
  ⟨get_reserve_to_release_eval reserves T B t hR hT hB hpos hle,
   fun t' ht' => get_reserve_to_release_insufficient reserves T B t' ht'⟩

/-- C5 witness: the sell scenario of the test suite: burning 50000 of
the 800000-supply side of a market with reserves 1000000 and other
supply 600000 releases 40000 collateral. -/
theorem get_reserve_to_release_spec_witness :
    get_reserve_to_release 1000000 800000 600000 50000 = .ok 40000 := by
  have h := (get_reserve_to_release_spec 1000000 800000 600000 50000
    (by norm_num [U64_MOD]) (by norm_num [U64_MOD]) (by norm_num [U64_MOD])
    (by norm_num) (by norm_num)).1
  norm_num at h
  rw [sqrt_eq_exact 922500 960 (by norm_num) (by norm_num)] at h
  norm_num at h
  exact h

/-- Case analysis of `get_tokens_to_mint` on `u64` inputs: all three
outcomes (`InvalidSupplies`, `NoTokensToMint`, success with the scaled
result reduced modulo `2^64`). -/
lemma get_tokens_to_mint_cases (R T B C : Nat)
    (hR : R < U64_MOD) (hT : T < U64_MOD) (hB : B < U64_MOD) (hC : C < U64_MOD)
    (hRpos : 0 < R) (hCpos : 0 < C) :
    ((R / 1000 + C / 1000) * (R / 1000 + C / 1000) < B / 1000 * (B / 1000) →
      get_tokens_to_mint R T B C = .error .InvalidSupplies) ∧
    (B / 1000 * (B / 1000) ≤ (R / 1000 + C / 1000) * (R / 1000 + C / 1000) →
      sqrt ((R / 1000 + C / 1000) * (R / 1000 + C / 1000) - B / 1000 * (B / 1000))
        ≤ T / 1000 →
      get_tokens_to_mint R T B C = .error .NoTokensToMint) ∧
    (B / 1000 * (B / 1000) ≤ (R / 1000 + C / 1000) * (R / 1000 + C / 1000) →
      T / 1000 <
        sqrt ((R / 1000 + C / 1000) * (R / 1000 + C / 1000) - B / 1000 * (B / 1000)) →
      get_tokens_to_mint R T B C =
        .ok ((sqrt ((R / 1000 + C / 1000) * (R / 1000 + C / 1000) -
                    B / 1000 * (B / 1000)) - T / 1000) * 1000 % U64_MOD)) := by
  have hRne : R ≠ 0 := by omega
  have hCne : C ≠ 0 := by omega
  have hrB : R / 1000 ≤ 18446744073709551 := scaled_lt R hR
  have hcB : C / 1000 ≤ 18446744073709551 := scaled_lt C hC
  have hbB : B / 1000 ≤ 18446744073709551 := scaled_lt B hB
  have h1 : ¬ U128_MOD ≤ R / 1000 + C / 1000 := by
    apply Nat.not_le.mpr
    calc R / 1000 + C / 1000 ≤ 18446744073709551 + 18446744073709551 :=
          Nat.add_le_add hrB hcB
      _ < U128_MOD := by norm_num [U128_MOD]
  have h2 : ¬ U128_MOD ≤ (R / 1000 + C / 1000) * (R / 1000 + C / 1000) :=
    Nat.not_le.mpr (mul_lt_u128 (by omega) (by omega))
  have h3 : ¬ U128_MOD ≤ B / 1000 * (B / 1000) :=
    Nat.not_le.mpr (mul_lt_u128 (by omega) (by omega))
  refine ⟨fun hinv => ?_, fun hinv hno => ?_, fun hinv hyes => ?_⟩
  · simp [get_tokens_to_mint, PRECISION_SCALE, hRne, hCne, h1, h2, h3, hinv]
  · have hninv : ¬ (R / 1000 + C / 1000) * (R / 1000 + C / 1000) <
        B / 1000 * (B / 1000) := by omega
    simp [get_tokens_to_mint, PRECISION_SCALE, hRne, hCne, h1, h2, h3, hninv, hno]
  · have hninv : ¬ (R / 1000 + C / 1000) * (R / 1000 + C / 1000) <
        B / 1000 * (B / 1000) := by omega
    have hnle : ¬ sqrt ((R / 1000 + C / 1000) * (R / 1000 + C / 1000) -
        B / 1000 * (B / 1000)) ≤ T / 1000 := by omega
    have hsqB : sqrt ((R / 1000 + C / 1000) * (R / 1000 + C / 1000) -
        B / 1000 * (B / 1000)) ≤ R / 1000 + C / 1000 :=
      sqrt_le_of_le_sq (Nat.sub_le _ _)
    have h4 : ¬ U128_MOD ≤
        (sqrt ((R / 1000 + C / 1000) * (R / 1000 + C / 1000) -
               B / 1000 * (B / 1000)) - T / 1000) * 1000 := by
      apply Nat.not_le.mpr
      calc _ ≤ 36893488147419103 * 1000 := Nat.mul_le_mul_right 1000 (by omega)
        _ < U128_MOD := by norm_num [U128_MOD]
    simp [get_tokens_to_mint, PRECISION_SCALE, hRne, hCne, h1, h2, h3, hninv,
          hnle, h4]

/-- C1 amended: for `u64` inputs with `reserves > 0` and
`collateralIn > 0`, `get_tokens_to_mint` scales all four inputs down
by 1000 with floor division, fails with `InvalidSupplies` when
`newReserves² < otherSupply²` in scaled units, fails with
`NoTokensToMint` when the recomputed `newTarget = isqrt(newReserves² −
otherSupply²)` does not exceed the scaled `targetSupply`, and
otherwise returns `(newTarget − targetSupply) × 1000` reduced modulo
`2^64` (the source's `as u64` cast; the reduction is the identity
whenever the product fits in 64 bits). -/
theorem get_tokens_to_mint_spec (R T B C : Nat)
    (hR : R < U64_MOD) (hT : T < U64_MOD) (hB : B < U64_MOD) (hC : C < U64_MOD)
    (hRpos : 0 < R) (hCpos : 0 < C) :
    ((R / 1000 + C / 1000) * (R / 1000 + C / 1000) < B / 1000 * (B / 1000) →
      get_tokens_to_mint R T B C = .error .InvalidSupplies) ∧
    (B / 1000 * (B / 1000) ≤ (R / 1000 + C / 1000) * (R / 1000 + C / 1000) →
      sqrt ((R / 1000 + C / 1000) * (R / 1000 + C / 1000) - B / 1000 * (B / 1000))
        ≤ T / 1000 →
      get_tokens_to_mint R T B C = .error .NoTokensToMint) ∧
    (B / 1000 * (B / 1000) ≤ (R / 1000 + C / 1000) * (R / 1000 + C / 1000) →
      T / 1000 <
        sqrt ((R / 1000 + C / 1000) * (R / 1000 + C / 1000) - B / 1000 * (B / 1000)) →
      get_tokens_to_mint R T B C =
        .ok ((sqrt ((R / 1000 + C / 1000) * (R / 1000 + C / 1000) -
                    B / 1000 * (B / 1000)) - T / 1000) * 1000 % U64_MOD)) :=
  get_tokens_to_mint_cases R T B C hR hT hB hC hRpos hCpos

/-- C1 counterexample: at the extreme input `reserves = collateral =
u64::MAX` with zero supplies, the final `as u64` cast truncates: the
function returns the scaled-up token amount reduced modulo `2^64`
(18446744073709550384) instead of the claimed
`(newTarget − targetSupply) × 1000 = 36893488147419102000`. -/
theorem get_tokens_to_mint_truncation_cx :
    get_tokens_to_mint 18446744073709551615 0 0 18446744073709551615 =
      .ok 18446744073709550384 ∧
    (sqrt ((18446744073709551615 / 1000 + 18446744073709551615 / 1000) *
           (18446744073709551615 / 1000 + 18446744073709551615 / 1000) -
           0 / 1000 * (0 / 1000)) - 0 / 1000) * 1000 =
      36893488147419102000 ∧
    (18446744073709550384 : Nat) ≠ 36893488147419102000 := by
  have hs : sqrt 1361129467683753762947943634486404 = 36893488147419102 :=
    sqrt_eq_exact 1361129467683753762947943634486404 36893488147419102
      (by norm_num) (by norm_num)
  have harg : (18446744073709551615 / 1000 + 18446744073709551615 / 1000) *
      (18446744073709551615 / 1000 + 18446744073709551615 / 1000) -
      0 / 1000 * (0 / 1000) = 1361129467683753762947943634486404 := by norm_num
  refine ⟨?_, ?_, by norm_num⟩
  · have h := (get_tokens_to_mint_cases 18446744073709551615 0 0 18446744073709551615
      (by norm_num [U64_MOD]) (by norm_num [U64_MOD]) (by norm_num [U64_MOD])
      (by norm_num [U64_MOD]) (by norm_num) (by norm_num)).2.2
      (by norm_num)
      (by rw [harg, hs]; norm_num)
    rw [harg, hs] at h
    norm_num [U64_MOD] at h
    exact h
  · rw [harg, hs]

/-- C1 amended witness: the documented example trade: depositing
100000 collateral into a balanced market with reserves 1000000 and
supplies 707000 mints 135000 tokens, with the modulo reduction the
identity. -/
theorem get_tokens_to_mint_spec_witness :
    get_tokens_to_mint 1000000 707000 707000 100000 = .ok 135000 := by
  have h := (get_tokens_to_mint_spec 1000000 707000 707000 100000
    (by norm_num [U64_MOD]) (by norm_num [U64_MOD]) (by norm_num [U64_MOD])
    (by norm_num [U64_MOD]) (by norm_num) (by norm_num)).2.2
  norm_num at h
  rw [sqrt_eq_exact 710151 842 (by norm_num) (by norm_num)] at h
  norm_num [U64_MOD] at h
  exact h

/-! Redemption: helper lemmas. -/

/-- A proportional payout never exceeds the reserves it is drawn from. -/
lemma payout_le (b S R : Nat) (hble : b ≤ S) (hS : 0 < S) : b * R / S ≤ R := by
  calc b * R / S ≤ S * R / S := Nat.div_le_div_right (Nat.mul_le_mul_right R hble)
    _ = R := Nat.mul_div_cancel_left R hS

/-- Canonical success of `redeem_core` on in-range inputs: the payout
is exactly `⌊b·R/S⌋` (the modulo cast is the identity) and only the
reserves field changes. -/
lemma redeem_core_ok (m : Market) (b S : Nat)
    (hbpos : 0 < b) (hble : b ≤ S) (hb64 : b < U64_MOD) (hR : m.reserves < U64_MOD) :
    redeem_core m b S = .ok (b * m.reserves / S,
      { m with reserves := m.reserves - b * m.reserves / S }) := by
  have hbne : b ≠ 0 := by omega
  have hSpos : 0 < S := by omega
  have hSne : S ≠ 0 := by omega
  have hmul : ¬ U128_MOD ≤ b * m.reserves := by
    apply Nat.not_le.mpr
    calc b * m.reserves ≤ 18446744073709551615 * 18446744073709551615 := by
          apply Nat.mul_le_mul
          · unfold U64_MOD at hb64; omega
          · unfold U64_MOD at hR; omega
      _ < U128_MOD := by norm_num [U128_MOD]
  have hcle : b * m.reserves / S ≤ m.reserves := payout_le b S m.reserves hble hSpos
  have hmod : b * m.reserves / S % U64_MOD = b * m.reserves / S :=
    Nat.mod_eq_of_lt (by omega)
  have hnotlt : ¬ m.reserves < b * m.reserves / S % U64_MOD := by
    rw [hmod]; omega
  simp only [redeem_core, if_neg hbne, if_neg hmul, if_neg hSne, hmod,
    if_neg (by omega : ¬ m.reserves < b * m.reserves / S)]

/-- Any successful `redeem_core` call only rewrites the reserves field,
by the payout, and the payout is covered by the reserves. -/
lemma redeem_core_frame (m : Market) (b S c : Nat) (m' : Market)
    (h : redeem_core m b S = .ok (c, m')) :
    m' = { m with reserves := m.reserves - c } ∧ c ≤ m.reserves := by
  simp only [redeem_core] at h
  split at h
  · exact absurd h (by simp)
  split at h
  · exact absurd h (by simp)
  split at h
  · exact absurd h (by simp)
  split at h
  · exact absurd h (by simp)
  rename_i hnlt
  simp only [Except.ok.injEq, Prod.mk.injEq] at h
  obtain ⟨hc, hm⟩ := h
  subst hc
  subst hm
  exact ⟨rfl, Nat.le_of_not_lt hnlt⟩

/-- The payout value of a successful `redeem_core` call on in-range
inputs is exactly the floor-division formula. -/
lemma redeem_core_value (m : Market) (b S c : Nat) (m' : Market)
    (hR : m.reserves < U64_MOD) (hble : b ≤ S)
    (h : redeem_core m b S = .ok (c, m')) :
    c = b * m.reserves / S := by
  simp only [redeem_core] at h
  split at h
  · exact absurd h (by simp)
  split at h
  · exact absurd h (by simp)
  split at h
  · exact absurd h (by simp)
  rename_i hSne
  have hSpos : 0 < S := Nat.pos_of_ne_zero hSne
  have hcle : b * m.reserves / S ≤ m.reserves := payout_le b S m.reserves hble hSpos
  have hmod : b * m.reserves / S % U64_MOD = b * m.reserves / S :=
    Nat.mod_eq_of_lt (by omega)
  split at h
  · exact absurd h (by simp)
  simp only [Except.ok.injEq, Prod.mk.injEq] at h
  obtain ⟨hc, -⟩ := h
  rw [← hc, hmod]

/-- A successful `redeem` requires `Resolved` status and only rewrites
the reserves field of the market. -/
lemma redeem_ok_cases (m : Market) (uy un c : Nat) (m' : Market)
    (h : redeem m uy un = .ok (c, m')) :
    m.status = .Resolved ∧ m' = { m with reserves := m.reserves - c } ∧
    c ≤ m.reserves := by
  unfold redeem at h
  split at h
  · exact absurd h (by simp)
  rename_i hst
  have hst' : m.status = .Resolved := not_not.mp hst
  split at h
  · exact absurd h (by simp)
  · obtain ⟨h1, h2⟩ := redeem_core_frame _ _ _ _ _ h
    exact ⟨hst', h1, h2⟩
  · obtain ⟨h1, h2⟩ := redeem_core_frame _ _ _ _ _ h
    exact ⟨hst', h1, h2⟩

/-- C2: redemption pays `⌊holderBalance · reserves / totalSupply⌋`
(computed exactly — the widening `u128` multiplication never overflows
for `u64` inputs and the `as u64` cast is the identity when the balance
is within the winning supply), and any sequence of sequential
redemptions whose balances are each within the winning supply succeeds
with total payout plus remaining reserves exactly the initial
reserves: the payouts never exceed the initial reserves and no
reserves subtraction underflows. -/
theorem redeem_proportional_solvent :
    (∀ (m : Market) (uy un c : Nat) (m' : Market),
      m.reserves < U64_MOD →
      (m.outcome = .Yes → uy ≤ m.yes_supply) →
      (m.outcome = .No → un ≤ m.no_supply) →
      redeem m uy un = .ok (c, m') →
      (m.outcome = .Yes → c = uy * m.reserves / m.yes_supply) ∧
      (m.outcome = .No → c = un * m.reserves / m.no_supply) ∧
      c ≤ m.reserves ∧ m'.reserves = m.reserves - c) ∧
    (∀ (m : Market) (bs : List Nat),
      m.status = .Resolved → m.outcome = .Yes →
      m.reserves < U64_MOD → m.yes_supply < U64_MOD →
      (∀ b ∈ bs, 0 < b ∧ b ≤ m.yes_supply) →
      ∃ mf total, redeemMany m bs = .ok (mf, total) ∧
        total + mf.reserves = m.reserves ∧ total ≤ m.reserves) := by
  constructor
  · intro m uy un c m' hR hyes hno h
    have hframe := redeem_ok_cases m uy un c m' h
    obtain ⟨hst, hm', hcle⟩ := hframe
    have hcore : (m.outcome = .Yes → c = uy * m.reserves / m.yes_supply) ∧
        (m.outcome = .No → c = un * m.reserves / m.no_supply) := by
      unfold redeem at h
      split at h
      · exact absurd h (by simp)
      split at h
      · exact absurd h (by simp)
      · rename_i hout
        refine ⟨fun _ => redeem_core_value _ _ _ _ _ hR (hyes hout) h,
                fun hcontra => ?_⟩
        rw [hout] at hcontra
        exact absurd hcontra (by simp)
      · rename_i hout
        refine ⟨fun hcontra => ?_,
                fun _ => redeem_core_value _ _ _ _ _ hR (hno hout) h⟩
        rw [hout] at hcontra
        exact absurd hcontra (by simp)
    subst hm'
    exact ⟨hcore.1, hcore.2, hcle, rfl⟩
  · intro m bs
    induction bs generalizing m with
    | nil =>
      intro _ _ _ _ _
      exact ⟨m, 0, rfl, by omega, by omega⟩
    | cons b bs ih =>
      intro hst hout hR hS hball
      obtain ⟨hbpos, hble⟩ := hball b (List.mem_cons_self b bs)
      have hb64 : b < U64_MOD := lt_of_le_of_lt hble hS
      have hcore := redeem_core_ok m b m.yes_supply hbpos hble hb64 hR
      have hred : redeem m b 0 = .ok (b * m.reserves / m.yes_supply,
          { m with reserves := m.reserves - b * m.reserves / m.yes_supply }) := by
        unfold redeem
        rw [if_neg (not_not_intro hst), hout]
        rw [hout] at hcore
        exact hcore
      have hSpos : 0 < m.yes_supply := by omega
      have hcle : b * m.reserves / m.yes_supply ≤ m.reserves :=
        payout_le b m.yes_supply m.reserves hble hSpos
      obtain ⟨mf, total, hmany, hsum, htot⟩ :=
        ih { m with reserves := m.reserves - b * m.reserves / m.yes_supply }
          hst hout
          (by
            show m.reserves - b * m.reserves / m.yes_supply < U64_MOD
            have := Nat.sub_le m.reserves (b * m.reserves / m.yes_supply)
            omega)
          hS
          (fun b' hb' => hball b' (List.mem_cons_of_mem b hb'))
      refine ⟨mf, b * m.reserves / m.yes_supply + total, ?_, ?_, ?_⟩
      · simp only [redeemMany, hred, hmany]
      · have hr' : total + mf.reserves = m.reserves - b * m.reserves / m.yes_supply :=
          hsum
        omega
      · have hr' : total + mf.reserves = m.reserves - b * m.reserves / m.yes_supply :=
          hsum
        omega

/-- C2 witness: in a resolved market with reserves 5000 and winning
supply 1000, a holder of 100 tokens is paid 500, and the sequence of
two 500-token redemptions succeeds paying 2500 + 1250 = 3750 in total,
below the initial reserves. -/
theorem redeem_proportional_solvent_witness :
    (((Market.mk 5000 1000 400 10 .Resolved .Yes).outcome = .Yes →
        500 = 100 * (Market.mk 5000 1000 400 10 .Resolved .Yes).reserves /
          (Market.mk 5000 1000 400 10 .Resolved .Yes).yes_supply) ∧
     ((Market.mk 5000 1000 400 10 .Resolved .Yes).outcome = .No →
        500 = 0 * (Market.mk 5000 1000 400 10 .Resolved .Yes).reserves /
          (Market.mk 5000 1000 400 10 .Resolved .Yes).no_supply) ∧
     500 ≤ (Market.mk 5000 1000 400 10 .Resolved .Yes).reserves ∧
     (Market.mk 4500 1000 400 10 .Resolved .Yes).reserves =
       (Market.mk 5000 1000 400 10 .Resolved .Yes).reserves - 500) ∧
    (∃ mf total,
      redeemMany (Market.mk 5000 1000 400 10 .Resolved .Yes) [500, 500] =
        .ok (mf, total) ∧
      total + mf.reserves = (Market.mk 5000 1000 400 10 .Resolved .Yes).reserves ∧
      total ≤ (Market.mk 5000 1000 400 10 .Resolved .Yes).reserves) :=
  ⟨redeem_proportional_solvent.1 (Market.mk 5000 1000 400 10 .Resolved .Yes)
      100 0 500 (Market.mk 4500 1000 400 10 .Resolved .Yes)
      (by norm_num [U64_MOD]) (fun _ => by norm_num) (fun h => by simp at h) rfl,
   redeem_proportional_solvent.2 (Market.mk 5000 1000 400 10 .Resolved .Yes)
      [500, 500] rfl rfl (by norm_num [U64_MOD]) (by norm_num [U64_MOD])
      (by decide)⟩

/-- C8 counterexample: a concrete redemption of 100 winning tokens
against a resolved market with reserves 5000 and recorded winning
supply 1000 pays 500 and decrements the reserves to 4500, but leaves
the market's recorded `yes_supply` at 1000 — the recorded winning-side
supply is not decremented, contradicting the claim that every prior
redemption changes the supply observed by subsequent redemptions. -/
theorem redeem_supply_unchanged_cx :
    redeem (Market.mk 5000 1000 400 10 .Resolved .Yes) 100 0 =
      .ok (500, Market.mk 4500 1000 400 10 .Resolved .Yes) ∧
    (Market.mk 4500 1000 400 10 .Resolved .Yes).yes_supply =
      (Market.mk 5000 1000 400 10 .Resolved .Yes).yes_supply := by
  exact ⟨rfl, rfl⟩

/-- C8 amended: each redemption is computed against the market state
at the moment of redemption, and every prior redemption changes the
reserves observed by subsequent redemptions (`reserves` decreases by
the payout); the winning side's recorded total supply, however, is
left unchanged by `redeem` (only the external token mint's supply is
reduced by the burn), as are the other market fields. -/
theorem redeem_updates_reserves_only (m : Market) (uy un c : Nat) (m' : Market)
    (h : redeem m uy un = .ok (c, m')) :
    m'.reserves = m.reserves - c ∧ c ≤ m.reserves ∧
    m'.yes_supply = m.yes_supply ∧ m'.no_supply = m.no_supply ∧
    m'.status = m.status ∧ m'.outcome = m.outcome := by
  obtain ⟨-, hm, hc⟩ := redeem_ok_cases m uy un c m' h
  subst hm
  exact ⟨rfl, hc, rfl, rfl, rfl, rfl⟩

/-- C8 amended witness: the concrete redemption instantiating the
frame theorem. -/
theorem redeem_updates_reserves_only_witness :
    (Market.mk 4500 1000 400 10 .Resolved .Yes).reserves =
      (Market.mk 5000 1000 400 10 .Resolved .Yes).reserves - 500 ∧
    500 ≤ (Market.mk 5000 1000 400 10 .Resolved .Yes).reserves ∧
    (Market.mk 4500 1000 400 10 .Resolved .Yes).yes_supply =
      (Market.mk 5000 1000 400 10 .Resolved .Yes).yes_supply ∧
    (Market.mk 4500 1000 400 10 .Resolved .Yes).no_supply =
      (Market.mk 5000 1000 400 10 .Resolved .Yes).no_supply ∧
    (Market.mk 4500 1000 400 10 .Resolved .Yes).status =
      (Market.mk 5000 1000 400 10 .Resolved .Yes).status ∧
    (Market.mk 4500 1000 400 10 .Resolved .Yes).outcome =
      (Market.mk 5000 1000 400 10 .Resolved .Yes).outcome :=
  redeem_updates_reserves_only (Market.mk 5000 1000 400 10 .Resolved .Yes)
    100 0 500 (Market.mk 4500 1000 400 10 .Resolved .Yes) rfl

/-! Trade instructions: helper lemmas. -/

/-- Everything a successful `buy_tokens` call guarantees: the market
was `Active`, the curve was called on the post-fee amount, slippage
held, and the ledger update adds the post-fee amount to reserves and
the minted tokens to the bought side. -/
lemma buy_tokens_ok_cases (config : Config) (m : Market) (now : Int)
    (amount : Nat) (buy_yes : Bool) (min_out t : Nat) (m' : Market)
    (h : buy_tokens config m now amount buy_yes min_out = .ok (t, m')) :
    m.status = .Active ∧ now < i64ofU64 m.end_time ∧ config.paused = false ∧
    get_tokens_to_mint m.reserves
      (if buy_yes then m.yes_supply else m.no_supply)
      (if buy_yes then m.no_supply else m.yes_supply)
      (amount - amount * config.protocol_fee_bps / 10000) = .ok t ∧
    min_out ≤ t ∧
    m' = { m with
           reserves := m.reserves + (amount - amount * config.protocol_fee_bps / 10000)
           yes_supply := if buy_yes then m.yes_supply + t else m.yes_supply
           no_supply := if buy_yes then m.no_supply else m.no_supply + t } := by
  simp only [buy_tokens] at h
  split at h
  · exact absurd h (by simp)
  rename_i hst
  split at h
  · exact absurd h (by simp)
  rename_i htime
  split at h
  · exact absurd h (by simp)
  rename_i hpause
  split at h
  · exact absurd h (by simp)
  split at h
  · exact absurd h (by simp)
  split at h
  · exact absurd h (by simp)
  rename_i tokens_out hcurve
  split at h
  · exact absurd h (by simp)
  rename_i hslip
  split at h
  · exact absurd h (by simp)
  split at h
  · rename_i hb
    split at h
    · exact absurd h (by simp)
    simp only [Except.ok.injEq, Prod.mk.injEq] at h
    obtain ⟨ht, hm⟩ := h
    subst ht
    subst hm
    refine ⟨not_not.mp hst, not_not.mp htime, by simpa using hpause, hcurve,
      Nat.le_of_not_lt hslip, ?_⟩
    simp [hb]
  · rename_i hb
    split at h
    · exact absurd h (by simp)
    simp only [Except.ok.injEq, Prod.mk.injEq] at h
    obtain ⟨ht, hm⟩ := h
    subst ht
    subst hm
    refine ⟨not_not.mp hst, not_not.mp htime, by simpa using hpause, hcurve,
      Nat.le_of_not_lt hslip, ?_⟩
    simp [hb]

/-- Everything a successful `sell_tokens` call guarantees: the curve
was called on the pre-fee reserves, the fee was taken from the curve
output, slippage was checked post-fee, the trader receives the
post-fee amount, and the ledger subtracts the full pre-fee output from
reserves and the burned amount from the sold side. -/
lemma sell_tokens_ok_cases (config : Config) (m : Market) (now : Int)
    (amount : Nat) (sell_yes : Bool) (min_out c : Nat) (m' : Market)
    (h : sell_tokens config m now amount sell_yes min_out = .ok (c, m')) :
    m.status = .Active ∧ now < i64ofU64 m.end_time ∧ config.paused = false ∧
    ∃ out, get_reserve_to_release m.reserves
        (if sell_yes then m.yes_supply else m.no_supply)
        (if sell_yes then m.no_supply else m.yes_supply) amount = .ok out ∧
      c = out - out * config.protocol_fee_bps / 10000 ∧
      min_out ≤ c ∧
      m' = { m with
             reserves := m.reserves - out
             yes_supply := if sell_yes then m.yes_supply - amount else m.yes_supply
             no_supply := if sell_yes then m.no_supply else m.no_supply - amount } := by
  simp only [sell_tokens] at h
  split at h
  · exact absurd h (by simp)
  rename_i hst
  split at h
  · exact absurd h (by simp)
  rename_i htime
  split at h
  · exact absurd h (by simp)
  rename_i hpause
  split at h
  · exact absurd h (by simp)
  rename_i collateral_out hcurve
  split at h
  · exact absurd h (by simp)
  split at h
  · exact absurd h (by simp)
  split at h
  · exact absurd h (by simp)
  rename_i hslip
  split at h
  · exact absurd h (by simp)
  split at h
  · rename_i hb
    split at h
    · exact absurd h (by simp)
    simp only [Except.ok.injEq, Prod.mk.injEq] at h
    obtain ⟨hc, hm⟩ := h
    subst hc
    subst hm
    refine ⟨not_not.mp hst, not_not.mp htime, by simpa using hpause,
      collateral_out, hcurve, rfl, Nat.le_of_not_lt hslip, ?_⟩
    simp [hb]
  · rename_i hb
    split at h
    · exact absurd h (by simp)
    simp only [Except.ok.injEq, Prod.mk.injEq] at h
    obtain ⟨hc, hm⟩ := h
    subst hc
    subst hm
    refine ⟨not_not.mp hst, not_not.mp htime, by simpa using hpause,
      collateral_out, hcurve, rfl, Nat.le_of_not_lt hslip, ?_⟩
    simp [hb]

/-- C4: fee application is asymmetric between the trade directions. On
every successful buy the fee `⌊amount·feeBps/10000⌋` is deducted before
the bonding-curve call (which receives the post-fee amount) and the
reserves increase by `amount − fee`; on every successful sell the
curve output is computed from the pre-fee reserves, the fee
`⌊collateralOut·feeBps/10000⌋` is taken from the output, slippage is
checked on the post-fee amount, the trader receives
`collateralOut − fee`, and the reserves decrease by the full pre-fee
`collateralOut`. -/
theorem trade_fee_asymmetry :
    (∀ (config : Config) (m : Market) (now : Int) (amount : Nat) (buy_yes : Bool)
       (min_out t : Nat) (m' : Market),
      buy_tokens config m now amount buy_yes min_out = .ok (t, m') →
      get_tokens_to_mint m.reserves
        (if buy_yes then m.yes_supply else m.no_supply)
        (if buy_yes then m.no_supply else m.yes_supply)
        (amount - amount * config.protocol_fee_bps / 10000) = .ok t ∧
      min_out ≤ t ∧
      m'.reserves = m.reserves + (amount - amount * config.protocol_fee_bps / 10000) ∧
      m'.yes_supply = (if buy_yes then m.yes_supply + t else m.yes_supply) ∧
      m'.no_supply = (if buy_yes then m.no_supply else m.no_supply + t)) ∧
    (∀ (config : Config) (m : Market) (now : Int) (amount : Nat) (sell_yes : Bool)
       (min_out c : Nat) (m' : Market),
      sell_tokens config m now amount sell_yes min_out = .ok (c, m') →
      ∃ out, get_reserve_to_release m.reserves
          (if sell_yes then m.yes_supply else m.no_supply)
          (if sell_yes then m.no_supply else m.yes_supply) amount = .ok out ∧
        c = out - out * config.protocol_fee_bps / 10000 ∧
        min_out ≤ c ∧
        m'.reserves = m.reserves - out ∧
        m'.yes_supply = (if sell_yes then m.yes_supply - amount else m.yes_supply) ∧
        m'.no_supply = (if sell_yes then m.no_supply else m.no_supply - amount)) := by
  constructor
  · intro config m now amount buy_yes min_out t m' h
    obtain ⟨-, -, -, hcurve, hslip, hm'⟩ :=
      buy_tokens_ok_cases config m now amount buy_yes min_out t m' h
    subst hm'
    exact ⟨hcurve, hslip, rfl, rfl, rfl⟩
  · intro config m now amount sell_yes min_out c m' h
    obtain ⟨-, -, -, out, hcurve, hc, hslip, hm'⟩ :=
      sell_tokens_ok_cases config m now amount sell_yes min_out c m' h
    subst hm'
    exact ⟨out, hcurve, hc, hslip, rfl, rfl, rfl⟩

/-- Forward evaluation of `buy_tokens`: when every guard passes, the
call succeeds with the curve's token output and the updated ledger. -/
lemma buy_tokens_eval (config : Config) (m : Market) (now : Int)
    (amount : Nat) (b : Bool) (mo t : Nat)
    (h1 : m.status = .Active) (h2 : now < i64ofU64 m.end_time)
    (h3 : config.paused = false)
    (h4 : amount * config.protocol_fee_bps < U64_MOD)
    (h5 : amount * config.protocol_fee_bps / 10000 ≤ amount)
    (hcurve : get_tokens_to_mint m.reserves
      (if b then m.yes_supply else m.no_supply)
      (if b then m.no_supply else m.yes_supply)
      (amount - amount * config.protocol_fee_bps / 10000) = .ok t)
    (h6 : mo ≤ t)
    (h7 : m.reserves + (amount - amount * config.protocol_fee_bps / 10000) < U64_MOD)
    (h8 : (if b then m.yes_supply else m.no_supply) + t < U64_MOD) :
    buy_tokens config m now amount b mo = .ok (t,
      { m with
        reserves := m.reserves + (amount - amount * config.protocol_fee_bps / 10000)
        yes_supply := if b then m.yes_supply + t else m.yes_supply
        no_supply := if b then m.no_supply else m.no_supply + t }) := by
  have hp : ¬ (config.paused = true) := by simp [h3]
  simp only [buy_tokens]
  rw [if_neg (not_not_intro h1), if_neg (not_not_intro h2), if_neg hp,
    if_neg (Nat.not_le.mpr h4), if_neg (Nat.not_lt.mpr h5), hcurve]
  simp only [if_neg (Nat.not_lt.mpr h6), if_neg (Nat.not_le.mpr h7),
    if_neg (Nat.not_le.mpr h8)]

/-- Forward evaluation of `sell_tokens`: when every guard passes, the
call succeeds with the post-fee collateral and the updated ledger. -/
lemma sell_tokens_eval (config : Config) (m : Market) (now : Int)
    (amount : Nat) (s : Bool) (mo out : Nat)
    (h1 : m.status = .Active) (h2 : now < i64ofU64 m.end_time)
    (h3 : config.paused = false)
    (hcurve : get_reserve_to_release m.reserves
      (if s then m.yes_supply else m.no_supply)
      (if s then m.no_supply else m.yes_supply) amount = .ok out)
    (h4 : out * config.protocol_fee_bps < U64_MOD)
    (h5 : out * config.protocol_fee_bps / 10000 ≤ out)
    (h6 : mo ≤ out - out * config.protocol_fee_bps / 10000)
    (h7 : out ≤ m.reserves)
    (h8 : amount ≤ (if s then m.yes_supply else m.no_supply)) :
    sell_tokens config m now amount s mo =
      .ok (out - out * config.protocol_fee_bps / 10000,
      { m with
        reserves := m.reserves - out
        yes_supply := if s then m.yes_supply - amount else m.yes_supply
        no_supply := if s then m.no_supply else m.no_supply - amount }) := by
  have hp : ¬ (config.paused = true) := by simp [h3]
  simp only [sell_tokens]
  rw [if_neg (not_not_intro h1), if_neg (not_not_intro h2), if_neg hp, hcurve]
  simp only [if_neg (Nat.not_le.mpr h4), if_neg (Nat.not_lt.mpr h5),
    if_neg (Nat.not_lt.mpr h6), if_neg (Nat.not_lt.mpr (le_trans h7 (le_refl _))),
    if_neg (Nat.not_lt.mpr h8)]

/-- C4 witness: with a 1% fee (100 bps) on the balanced test market, a
100000 buy pays a 1000 fee, the curve mints 134000 tokens from the net
99000, and reserves rise by 99000; a 50000 sell releases 35000 from
the curve, pays the trader 34650 after the 350 fee, and reserves fall
by the full 35000. -/
theorem trade_fee_asymmetry_witness :
    (get_tokens_to_mint mW.reserves (if true then mW.yes_supply else mW.no_supply)
       (if true then mW.no_supply else mW.yes_supply)
       (100000 - 100000 * cfgW.protocol_fee_bps / 10000) = .ok 134000 ∧
     0 ≤ 134000 ∧
     mWb.reserves = mW.reserves + (100000 - 100000 * cfgW.protocol_fee_bps / 10000) ∧
     mWb.yes_supply = (if true then mW.yes_supply + 134000 else mW.yes_supply) ∧
     mWb.no_supply = (if true then mW.no_supply else mW.no_supply + 134000)) ∧
    (∃ out, get_reserve_to_release mW.reserves
        (if true then mW.yes_supply else mW.no_supply)
        (if true then mW.no_supply else mW.yes_supply) 50000 = .ok out ∧
      34650 = out - out * cfgW.protocol_fee_bps / 10000 ∧
      0 ≤ 34650 ∧
      mWs.reserves = mW.reserves - out ∧
      mWs.yes_supply = (if true then mW.yes_supply - 50000 else mW.yes_supply) ∧
      mWs.no_supply = (if true then mW.no_supply else mW.no_supply - 50000)) := by
  have hmint : get_tokens_to_mint 1000000 707000 707000 99000 = .ok 134000 := by
    have h := (get_tokens_to_mint_cases 1000000 707000 707000 99000
      (by norm_num [U64_MOD]) (by norm_num [U64_MOD]) (by norm_num [U64_MOD])
      (by norm_num [U64_MOD]) (by norm_num) (by norm_num)).2.2
    norm_num at h
    rw [sqrt_eq_exact 707952 841 (by norm_num) (by norm_num)] at h
    norm_num [U64_MOD] at h
    exact h
  have hrel : get_reserve_to_release 1000000 707000 707000 50000 = .ok 35000 := by
    have h := get_reserve_to_release_eval 1000000 707000 707000 50000
      (by norm_num [U64_MOD]) (by norm_num [U64_MOD]) (by norm_num [U64_MOD])
      (by norm_num) (by norm_num)
    norm_num at h
    rw [sqrt_eq_exact 931498 965 (by norm_num) (by norm_num)] at h
    norm_num at h
    exact h
  have hbuy : buy_tokens cfgW mW 0 100000 true 0 = .ok (134000, mWb) := by
    have h := buy_tokens_eval cfgW mW 0 100000 true 0 134000
      rfl (by norm_num [mW, i64ofU64]) rfl (by norm_num [cfgW, U64_MOD])
      (by norm_num [cfgW])
      (by
        show get_tokens_to_mint mW.reserves
          (if true then mW.yes_supply else mW.no_supply)
          (if true then mW.no_supply else mW.yes_supply)
          (100000 - 100000 * cfgW.protocol_fee_bps / 10000) = .ok 134000
        norm_num [mW, cfgW]
        exact hmint)
      (by norm_num) (by norm_num [mW, cfgW, U64_MOD]) (by norm_num [mW, U64_MOD])
    rw [h]
    rfl
  have hsell : sell_tokens cfgW mW 0 50000 true 0 = .ok (34650, mWs) := by
    have h := sell_tokens_eval cfgW mW 0 50000 true 0 35000
      rfl (by norm_num [mW, i64ofU64]) rfl
      (by
        show get_reserve_to_release mW.reserves
          (if true then mW.yes_supply else mW.no_supply)
          (if true then mW.no_supply else mW.yes_supply) 50000 = .ok 35000
        norm_num [mW]
        exact hrel)
      (by norm_num [cfgW, U64_MOD]) (by norm_num [cfgW]) (by norm_num [cfgW])
      (by norm_num [mW]) (by norm_num [mW])
    rw [h]
    rfl
  exact ⟨trade_fee_asymmetry.1 cfgW mW 0 100000 true 0 134000 mWb hbuy,
         trade_fee_asymmetry.2 cfgW mW 0 50000 true 0 34650 mWs hsell⟩

/-- C7: lifecycle gates reject out-of-order operations with the
specified errors (and, the operations being validate-then-mutate,
return no updated market state): resolving a resolvable market before
`end_time` fails with `MarketNotEnded`; buying or selling at or past
`end_time` fails with `MarketEnded`; redeeming a market whose outcome
is `Undetermined` fails with `NotResolved`. -/
theorem lifecycle_gates :
    (∀ (m : Market) (now : Int) (w : Bool),
      (m.status = .Active ∨ m.status = .Ended) → now < i64ofU64 m.end_time →
      resolve_market m now w = .error (.resolve .MarketNotEnded)) ∧
    (∀ (config : Config) (m : Market) (now : Int) (amount : Nat) (b : Bool)
       (mo : Nat),
      m.status = .Active → i64ofU64 m.end_time ≤ now →
      buy_tokens config m now amount b mo = .error (.trade .MarketEnded)) ∧
    (∀ (config : Config) (m : Market) (now : Int) (amount : Nat) (s : Bool)
       (mo : Nat),
      m.status = .Active → i64ofU64 m.end_time ≤ now →
      sell_tokens config m now amount s mo = .error (.trade .MarketEnded)) ∧
    (∀ (m : Market) (uy un : Nat),
      m.outcome = .Undetermined → redeem m uy un = .error (.redeem .NotResolved)) := by
  refine ⟨?_, ?_, ?_, ?_⟩
  · intro m now w hst hlt
    unfold resolve_market
    rw [if_neg (not_not_intro hst), if_pos hlt]
  · intro config m now amount b mo hact hle
    unfold buy_tokens
    rw [if_neg (not_not_intro hact), if_pos (not_lt.mpr hle)]
  · intro config m now amount s mo hact hle
    unfold sell_tokens
    rw [if_neg (not_not_intro hact), if_pos (not_lt.mpr hle)]
  · intro m uy un hout
    unfold redeem
    split
    · rfl
    · simp [hout]

/-- C7 witness: concrete gate violations on a market ending at time
10: resolution at time 0, trades at time 10, and redemption of the
unresolved market each fail with the specified error. -/
theorem lifecycle_gates_witness :
    resolve_market (Market.mk 0 0 0 10 .Active .Undetermined) 0 true =
      .error (.resolve .MarketNotEnded) ∧
    buy_tokens (Config.mk 0 false 0) (Market.mk 0 0 0 10 .Active .Undetermined)
      10 5 true 0 = .error (.trade .MarketEnded) ∧
    sell_tokens (Config.mk 0 false 0) (Market.mk 0 0 0 10 .Active .Undetermined)
      10 5 true 0 = .error (.trade .MarketEnded) ∧
    redeem (Market.mk 0 0 0 10 .Active .Undetermined) 1 1 =
      .error (.redeem .NotResolved) :=
  ⟨lifecycle_gates.1 _ 0 true (Or.inl rfl) (by norm_num [i64ofU64]),
   lifecycle_gates.2.1 _ _ 10 5 true 0 rfl (by norm_num [i64ofU64]),
   lifecycle_gates.2.2.1 _ _ 10 5 true 0 rfl (by norm_num [i64ofU64]),
   lifecycle_gates.2.2.2 _ 1 1 rfl⟩

/-- A successful `create_market_state` yields the freshly initialized
market: zero ledger fields, `Active` status, `Undetermined` outcome. -/
lemma create_market_state_ok (config : Config) (now qlen et : Nat) (m : Market)
    (h : create_market_state config now qlen et = .ok m) :
    m = { reserves := 0, yes_supply := 0, no_supply := 0, end_time := et,
          status := .Active, outcome := .Undetermined } := by
  unfold create_market_state at h
  split at h
  · exact absurd h (by simp)
  split at h
  · exact absurd h (by simp)
  split at h
  · exact absurd h (by simp)
  simp only [Except.ok.injEq] at h
  exact h.symm

/-- A successful `resolve_market` sets `Resolved` status and a
determined outcome in the same step, leaving other fields unchanged. -/
lemma resolve_market_ok (m : Market) (now : Int) (w : Bool) (m' : Market)
    (h : resolve_market m now w = .ok m') :
    m' = { m with outcome := if w then .Yes else .No, status := .Resolved } := by
  unfold resolve_market at h
  split at h
  · exact absurd h (by simp)
  split at h
  · exact absurd h (by simp)
  simp only [Except.ok.injEq] at h
  exact h.symm

/-- C10: in every reachable market state, `Resolved` status implies a
determined outcome: markets are created `Active`/`Undetermined`, the
only operation setting `Resolved` also sets the outcome to `Yes` or
`No` in the same step, and every other operation leaves both fields
unchanged. -/
theorem resolved_implies_outcome_set (m : Market) (hr : Reachable m) :
    m.status = .Resolved → m.outcome ≠ .Undetermined := by
  induction hr with
  | created config now qlen et m hok =>
    intro hres
    rw [create_market_state_ok config now qlen et m hok] at hres
    exact absurd hres (by simp)
  | buy config m now amount b mo t m' hrec hok ih =>
    intro hres
    obtain ⟨hact, -, -, -, -, hm'⟩ :=
      buy_tokens_ok_cases config m now amount b mo t m' hok
    subst hm'
    have h2 : m.status = .Resolved := hres
    rw [hact] at h2
    exact absurd h2 (by simp)
  | sell config m now amount s mo c m' hrec hok ih =>
    intro hres
    obtain ⟨hact, -, -, -⟩ := sell_tokens_ok_cases config m now amount s mo c m' hok
    have h2 : m'.status = m.status := by
      obtain ⟨-, -, -, out, -, -, -, hm'⟩ :=
        sell_tokens_ok_cases config m now amount s mo c m' hok
      subst hm'
      rfl
    rw [h2, hact] at hres
    exact absurd hres (by simp)
  | resolved m now w m' hrec hok ih =>
    intro _
    rw [resolve_market_ok m now w m' hok]
    cases w <;> simp
  | redeemed m uy un c m' hrec hok ih =>
    intro hres
    obtain ⟨hst, hm', -⟩ := redeem_ok_cases m uy un c m' hok
    subst hm'
    exact ih hst
  | other m m' hrec hst hout ih =>
    intro hres
    rw [hout]
    exact ih (by rw [← hst]; exact hres)

/-- C10 witness: a market created at time 0 with end time 10 and
resolved YES at time 10 is reachable, `Resolved`, and has a determined
outcome. -/
theorem resolved_implies_outcome_set_witness :
    (Market.mk 0 0 0 10 .Resolved .Yes).outcome ≠ .Undetermined :=
  resolved_implies_outcome_set (Market.mk 0 0 0 10 .Resolved .Yes)
    (Reachable.resolved (Market.mk 0 0 0 10 .Active .Undetermined) 10 true
      (Market.mk 0 0 0 10 .Resolved .Yes)
      (Reachable.created (Config.mk 0 false 0) 0 0 10
        (Market.mk 0 0 0 10 .Active .Undetermined) rfl)
      rfl)
    rfl

end PredictionMarket
